import Mathlib

/-!
Verification of the Zinc toolchain specification against the sources.

Each section shallowly embeds one part of the repository:

* `Zrustm` — the `zrustm` virtual machine's `Rem`/`Pop`/`Push` instructions
  (`zrustm/src/instructions/rem.rs`, `zrustm/src/instructions/memory/pop.rs`).
* `Zrustvm` — the `zrust-vm` virtual machine's `Gt` instruction
  (`zrust-vm/src/instructions/gt.rs`).
* `ZincOld` — the `zinc` virtual machine's `Slice` instruction
  (`zinc/src/instructions/memory/slice.rs`).
* `ZincVM` — the `zinc-vm` branch-predicated virtual machine
  (`zinc-vm/src/instructions/flow/conditional.rs` and the spec's §4.6).
* `ZrustBytecode` — the `zrust-bytecode` `Cast` instruction
  (`zrust-bytecode/src/instructions/cast.rs`).
* `Semantic` — the semantic attribute analyzer and constant-array element
  (`zinc-compiler/src/semantic/...`).
* `Syntax` — the `contract` and `use` statement parsers
  (`zinc-compiler/src/syntax/parser/statement/{contract,use}.rs`).
* `TypeIndex` — the process-wide type item index
  (`zinc-compiler/src/semantic/scope/item/type/index.rs`).

Stacks are represented as lists with the head being the top of the stack.
The test utilities of every VM subtree list expected stacks top-to-bottom
(established by `test_pop`, whose final stack is bottom-to-top `[1, 3]` and
whose expectation reads `&[3, 1]`).
-/

namespace Zrustm

/-- Modelled from the spec: the `ElementOperator::div_rem` implementation is not
under `src/` (only its caller `Rem::execute` and the test `test_rem` are).
The in-source test `test_rem` fixes its behaviour on the four sign
combinations: `(9,4) ↦ 1`, `(9,-4) ↦ 1`, `(-9,4) ↦ 3`, `(-9,-4) ↦ 3`, which
matches the spec's §8 scenario 7 and forces Euclidean division (quotient
`Int.ediv`, remainder `Int.emod`, always non-negative); truncated and floor
division both disagree with those outcomes.  Division by zero is an error. -/
def div_rem (a b : Int) : Option (Int × Int) :=
  if b = 0 then none else some (Int.ediv a b, Int.emod a b)

/-- The `zrustm` instructions relevant to the claims: `Push`, `Pop`, `Rem`. -/
inductive Instruction : Type
  | push : Int → Instruction
  | pop : Nat → Instruction
  | rem : Instruction

/-- One instruction step on the evaluation stack, mirroring the `execute`
implementations: `Rem` pops `left` (the top), then `right`, computes
`div_rem left right` and pushes the remainder; `Pop(count)` pops `count`
values; `Push` pushes its value.  `none` is a runtime error. -/
def step : Instruction → List Int → Option (List Int)
  | .push v, s => some (v :: s)
  | .pop n, s => if n ≤ s.length then some (s.drop n) else none
  | .rem, left :: right :: s => (div_rem left right).map fun p => p.2 :: s
  | .rem, _ => none

/-- Run a `zrustm` instruction list on an evaluation stack. -/
def run : List Instruction → List Int → Option (List Int)
  | [], s => some s
  | i :: is, s => (step i s).bind (run is)

end Zrustm

namespace Zrustvm

/-- The `zrust-vm` instructions relevant to the claims: `Push`, `Gt`. -/
inductive Instruction : Type
  | push : Int → Instruction
  | gt : Instruction

/-- Modelled from the spec: the `ElementOperator::gt` implementation is not
under `src/` (only its caller `Gt::execute` and the test `test_gt` are); per
the spec's comparison semantics a comparison pushes a boolean, `1` when
`left > right` and `0` otherwise, which matches the test's expected stack
`[0, 0, 1]` (top-to-bottom) for the operand pairs `(2,1)`, `(2,2)`, `(1,2)`. -/
def gtOp (left right : Int) : Int := if right < left then 1 else 0

/-- One instruction step, mirroring `Gt::execute`: `left` is the first pop
(the top of the stack), `right` the second; `gt left right` is pushed. -/
def step : Instruction → List Int → Option (List Int)
  | .push v, s => some (v :: s)
  | .gt, left :: right :: s => some (gtOp left right :: s)
  | .gt, _ => none

/-- Run a `zrust-vm` instruction list on an evaluation stack. -/
def run : List Instruction → List Int → Option (List Int)
  | [], s => some s
  | i :: is, s => (step i s).bind (run is)

end Zrustvm

namespace ZincOld

/-- The `zinc` (old subtree) instructions relevant to the claims:
`PushConst` and `Slice(len, slice_len, slice_offset)`. -/
inductive Instruction : Type
  | pushConst : Int → Instruction
  | slice : Nat → Nat → Nat → Instruction

/-- Pop `n` values off the stack, returning them in pop order together with
the remaining stack; `none` is a stack underflow. -/
def popN : Nat → List Int → Option (List Int × List Int)
  | 0, s => some ([], s)
  | _ + 1, [] => none
  | n + 1, x :: s =>
      (popN n s).map fun p => (x :: p.1, p.2)

/-- One instruction step, mirroring `Slice::execute`: compute
`offset = len - (slice_len + slice_offset)` by checked subtraction (failure is
`IndexOutOfBounds`), pop and discard `offset` values, pop `slice_len` values
into the slice, pop and discard `slice_offset` values, then push the slice
back in reverse pop order (so the first-popped slice value ends on top). -/
def step : Instruction → List Int → Option (List Int)
  | .pushConst v, s => some (v :: s)
  | .slice len sl so, s =>
      if sl + so ≤ len then
        (popN (len - (sl + so)) s).bind fun d1 =>
          (popN sl d1.2).bind fun sl1 =>
            (popN so sl1.2).map fun d2 => sl1.1 ++ d2.2
      else none

/-- Run a `zinc` instruction list on an evaluation stack. -/
def run : List Instruction → List Int → Option (List Int)
  | [], s => some s
  | i :: is, s => (step i s).bind (run is)

end ZincOld

namespace ZrustBytecode

/-- Modelled from the spec: the `InstructionCode` enumeration is not under
`src/`; only the fact that `Cast` has a dedicated one-byte opcode matters to
the claims (the spec's §6 encodes each instruction as `opcode u8` followed by
its operands), so its numeric value is fixed here arbitrarily. -/
def castOpcode : Nat := 13

/-- The decoding errors of the `zrust-bytecode` crate that the `Cast` decoder
can produce. -/
inductive DecodingError : Type
  | unexpectedEOF : DecodingError
  | unknownInstructionCode : DecodingError
  deriving DecidableEq

/-- The `Cast` instruction of `zrust-bytecode`: `pub struct Cast;` — a unit
struct with no fields. -/
structure Cast : Type where
  deriving DecidableEq

/-- The constructor `Cast::new(signed, length)`: both arguments are discarded (the Rust
parameters are named `_signed` and `_length`) and the unit `Cast` is
returned. -/
def Cast.new (_signed : Bool) (_length : Nat) : Cast := {}

/-- The method `Cast::encode`: the one-byte sequence holding only the opcode. -/
def Cast.encode (_ : Cast) : List Nat := [castOpcode]

/-- Modelled from the spec: `decode_simple_instruction` is not under `src/`
(only its caller `Cast::decode` is); per the spec's §6 encoding, an
operand-less instruction decodes from its single opcode byte, consuming one
byte; a missing byte or a wrong opcode is a decoding error. -/
def Cast.decode (bytes : List Nat) : Except DecodingError (Cast × Nat) :=
  match bytes with
  | [] => .error .unexpectedEOF
  | b :: _ => if b = castOpcode then .ok ({}, 1) else .error .unknownInstructionCode

end ZrustBytecode

namespace TypeIndex

/-- Modelled from the spec: the `BuiltInTypeId` enumeration is not under
`src/` (only its use in `Index::new` is); the spec's §3 lists exactly three
built-in type IDs seeded at boot, and per the claim their IDs are the
built-in count's worth of initial identities, i.e. the first three Rust enum
discriminants `0`, `1`, `2`. -/
def builtinPointId : Nat := 0
def builtinSignatureId : Nat := 1
def builtinTokenId : Nat := 2

/-- The process-wide type index state: the inner `HashMap<usize, String>`,
embedded as an association list with at most one entry per key. -/
def State : Type := List (Nat × String)

/-- The map operation `HashMap::insert`: record `title` under `key`, replacing any previous
entry with that key. -/
def insertEntry (m : State) (key : Nat) (title : String) : State :=
  (key, title) :: m.filter fun p => p.1 ≠ key

/-- The map operation `HashMap::len`: the number of recorded entries. -/
def lenEntries (m : State) : Nat := m.length

/-- The method `Index::next_with_id`: add `title` under the explicit `type_id` key and
return `type_id`. -/
def next_with_id (m : State) (title : String) (type_id : Nat) : Nat × State :=
  (type_id, insertEntry m type_id title)

/-- The constructor `Index::new`: the empty map seeded with the three built-in type titles
under their fixed IDs. -/
def newIndex : State :=
  let m0 : State := []
  let m1 := (next_with_id m0 "structure std::crypto::ecc::Point" builtinPointId).2
  let m2 := (next_with_id m1 "structure std::crypto::schnorr::Signature" builtinSignatureId).2
  (next_with_id m2 "structure std::assets::Token" builtinTokenId).2

/-- The method `Index::next`: the generated ID is the current number of recorded
entries; the new entry is recorded under that ID, which is returned. -/
def next (m : State) (title : String) : Nat × State :=
  next_with_id m title (lenEntries m)

/-- Run a whole compile's sequence of `Index::next` calls, returning the list
of assigned IDs and the final state. -/
def runCalls : State → List String → List Nat × State
  | m, [] => ([], m)
  | m, t :: ts =>
      let r := next m t
      let rest := runCalls r.2 ts
      (r.1 :: rest.1, rest.2)

/-- The key set of the index state. -/
def keys (m : State) : List Nat := m.map Prod.fst

/-- Invariant: a state whose key set is `{0, …, n-1}` (as a finset) with `n`
entries and no duplicate keys. -/
def Contiguous (m : State) (n : Nat) : Prop :=
  (keys m).toFinset = Finset.range n ∧ lenEntries m = n ∧ (keys m).Nodup
end TypeIndex

namespace Lexical

/-- A lexical source location, `Location { line, column }`, shared by the
syntax parsers and the semantic analyzer of `zinc-compiler`. -/
structure Location : Type where
  line : Nat
  column : Nat
  deriving DecidableEq

end Lexical

namespace Semantic

open Lexical

/-- A syntax literal; integer literals carry the big-integer value that
`IntegerConstant::try_from` extracts from them. -/
inductive Literal : Type
  | boolean : Bool → Literal
  | integer : Int → Literal
  | str : String → Literal
  deriving DecidableEq

mutual

/-- The type `zinc_syntax::AttributeElementVariant`: either a single literal value or
a nested list of further attribute elements. -/
inductive AttributeElementVariant : Type
  | value : Literal → AttributeElementVariant
  | nested : List AttributeElement → AttributeElementVariant

/-- A `zinc_syntax` attribute element: a location, the element path
(`path.to_string()` in the source), and an optional variant. -/
inductive AttributeElement : Type
  | mk : Location → String → Option AttributeElementVariant → AttributeElement

end

/-- The element's location. -/
def AttributeElement.location : AttributeElement → Location
  | .mk l _ _ => l

/-- The element's path, as a string. -/
def AttributeElement.path : AttributeElement → String
  | .mk _ p _ => p

/-- The element's optional variant. -/
def AttributeElement.variant : AttributeElement → Option AttributeElementVariant
  | .mk _ _ v => v

/-- A `zinc_syntax::Attribute`: a location and the attribute elements. -/
structure SyntaxAttribute : Type where
  location : Location
  elements : List AttributeElement

/-- The semantic attribute errors produced by `Attribute::try_from`. -/
inductive Error : Type
  | attributeEmpty (location : Location)
  | attributeUnknown (location : Location) (found : String)
  | attributeElementsCount (location : Location) (name : String)
      (expected : Nat) (found : Nat)
  | attributeExpectedElement (location : Location) (name : String)
      (position : Nat) (expected : String) (found : String)
  | attributeExpectedIntegerLiteral (location : Location) (name : String)
  | attributeExpectedNested (location : Location) (name : String)
  deriving DecidableEq

/-- The semantic attribute. -/
inductive Attribute : Type
  | test
  | shouldPanic
  | ignore
  | zksyncMsg (sender recipient token_address amount : Int)
  deriving DecidableEq

/-- Modelled from the spec: `zinc_const::contract::TRANSACTION_FIELDS_COUNT`
is not under `src/`; the spec states the `zksync::msg` attribute requires
exactly four nested key/value pairs. -/
def TRANSACTION_FIELDS_COUNT : Nat := 4

/-- One of the four identical per-field blocks of `Attribute::try_from`: the
element at `position` must be named `expected` (otherwise
`AttributeExpectedElement` with the found name) and must carry an
integer-literal value (otherwise `AttributeExpectedIntegerLiteral`). -/
def checkField (e : AttributeElement) (position : Nat) (expected : String) :
    Except Error Int :=
  if e.path = expected then
    match e.variant with
    | some (.value (.integer n)) => .ok n
    | _ => .error (.attributeExpectedIntegerLiteral e.location expected)
  else
    .error (.attributeExpectedElement e.location "zksync::msg" position expected e.path)

/-- The `"zksync::msg"` arm of `Attribute::try_from`: the element must carry
a nested list of exactly `TRANSACTION_FIELDS_COUNT` elements (otherwise
`AttributeElementsCount`, or `AttributeExpectedNested` when not nested), and
the four elements are checked in order. -/
def zksyncBranch (element : AttributeElement) : Except Error Attribute :=
  match element.variant with
  | some (.nested nested) =>
      match nested with
      | [s, r, t, a] =>
          match checkField s 1 "sender" with
          | .error e => .error e
          | .ok sender =>
              match checkField r 2 "recipient" with
              | .error e => .error e
              | .ok recipient =>
                  match checkField t 3 "token_address" with
                  | .error e => .error e
                  | .ok token_address =>
                      match checkField a 4 "amount" with
                      | .error e => .error e
                      | .ok amount =>
                          .ok (.zksyncMsg sender recipient token_address amount)
      | _ =>
          .error (.attributeElementsCount element.location "zksync::msg"
            TRANSACTION_FIELDS_COUNT nested.length)
  | _ => .error (.attributeExpectedNested element.location "zksync::msg")

/-- The conversion `Attribute::try_from`: inspect the first element (error `AttributeEmpty`
when there is none) and dispatch on its path; unknown paths produce
`AttributeUnknown`. -/
def tryFrom (value : SyntaxAttribute) : Except Error Attribute :=
  match value.elements with
  | [] => .error (.attributeEmpty value.location)
  | element :: _ =>
      if element.path = "test" then .ok .test
      else if element.path = "should_panic" then .ok .shouldPanic
      else if element.path = "ignore" then .ok .ignore
      else if element.path = "zksync::msg" then zksyncBranch element
      else .error (.attributeUnknown value.location element.path)

/-- The spec's required shape for a `zksync::msg` attribute element: exactly
four nested key/value pairs named, in order, `sender`, `recipient`,
`token_address`, `amount`, each with an integer-literal value (the four
integers being `n1`, `n2`, `n3`, `n4`). -/
def zksyncMsgShape (el : AttributeElement) (n1 n2 n3 n4 : Int) : Prop :=
  ∃ e1 e2 e3 e4,
    el.variant = some (.nested [e1, e2, e3, e4]) ∧
    e1.path = "sender" ∧ e1.variant = some (.value (.integer n1)) ∧
    e2.path = "recipient" ∧ e2.variant = some (.value (.integer n2)) ∧
    e3.path = "token_address" ∧ e3.variant = some (.value (.integer n3)) ∧
    e4.path = "amount" ∧ e4.variant = some (.value (.integer n4))
end Semantic

namespace Semantic

/-- A concrete well-shaped `#[zksync::msg(...)]` attribute used as witness
input: four nested elements `sender = 1`, `recipient = 2`,
`token_address = 3`, `amount = 4`. -/
def exampleZkEl1 : AttributeElement := .mk ⟨1, 14⟩ "sender" (some (.value (.integer 1)))

/-- The `recipient = 2` element of the witness attribute. -/
def exampleZkEl2 : AttributeElement := .mk ⟨1, 25⟩ "recipient" (some (.value (.integer 2)))

/-- The `token_address = 3` element of the witness attribute. -/
def exampleZkEl3 : AttributeElement :=
  .mk ⟨1, 39⟩ "token_address" (some (.value (.integer 3)))

/-- The `amount = 4` element of the witness attribute. -/
def exampleZkEl4 : AttributeElement := .mk ⟨1, 57⟩ "amount" (some (.value (.integer 4)))

/-- The `zksync::msg` element of the witness attribute. -/
def exampleZkMsgElement : AttributeElement :=
  .mk ⟨1, 3⟩ "zksync::msg"
    (some (.nested [exampleZkEl1, exampleZkEl2, exampleZkEl3, exampleZkEl4]))

/-- The witness syntax attribute `#[zksync::msg(sender = 1, recipient = 2,
token_address = 3, amount = 4)]`. -/
def exampleZkMsgAttribute : SyntaxAttribute := ⟨⟨1, 1⟩, [exampleZkMsgElement]⟩

end Semantic

namespace Parsing

open Lexical

/-- The lexical keywords relevant to the `contract` and `use` statement
parsers. -/
inductive Keyword : Type
  | contract
  | use
  | as
  deriving DecidableEq

/-- The lexical symbols relevant to the `contract` and `use` statement
parsers. -/
inductive Symbol : Type
  | semicolon
  | bracketCurlyLeft
  | bracketCurlyRight
  | parenthesisRight
  | doubleColon
  deriving DecidableEq

/-- A lexeme: keyword, identifier, literal, symbol, or end of input. -/
inductive Lexeme : Type
  | keyword : Keyword → Lexeme
  | identifier : String → Lexeme
  | literalInteger : Int → Lexeme
  | symbol : Symbol → Lexeme
  | eof
  deriving DecidableEq

/-- A token: a lexeme plus its location. -/
structure Token : Type where
  lexeme : Lexeme
  location : Location
  deriving DecidableEq

/-- The syntax errors of the statement parsers: `Expected { wanted, found,
hint }` (from `SyntaxError::expected_one_of`) and `ExpectedIdentifier
{ found, hint }` (from `SyntaxError::expected_identifier`), both carrying a
location. -/
inductive SyntaxError : Type
  | expectedOneOf (location : Location) (wanted : List String) (found : Lexeme)
      (hint : Option String)
  | expectedIdentifier (location : Location) (found : Lexeme) (hint : Option String)
  deriving DecidableEq

/-- The hint carried by a syntax error. -/
def SyntaxError.hintOf : SyntaxError → Option String
  | .expectedOneOf _ _ _ h => h
  | .expectedIdentifier _ _ h => h

/-- The type `crate::error::Error`: the compiler error wrapper around a syntax
error. -/
inductive Error : Type
  | syntaxError : SyntaxError → Error
  deriving DecidableEq

/-- The helper `take_or_next(initial, stream)`: take the initial lookahead token when
present, otherwise the next token of the stream; the lexer contract yields
an `Eof` token at the end of input (concrete token streams in this file end
in an explicit `Eof` token, so the empty-stream fallback is unreachable on
them). -/
def takeOrNext (initial : Option Token) (stream : List Token) : Token × List Token :=
  match initial with
  | some t => (t, stream)
  | none =>
      match stream with
      | t :: rest => (t, rest)
      | [] => (⟨.eof, ⟨0, 0⟩⟩, [])

/-- The contract parser's missing-identifier hint (`HINT_EXPECTED_IDENTIFIER`
in `contract.rs`). -/
def HINT_EXPECTED_IDENTIFIER : String :=
  "contract must have an identifier, e.g. `contract Uniswap \x7b ... \x7d`"

/-- The use parser's missing-alias hint (`HINT_EXPECTED_ALIAS_IDENTIFIER` in
`use.rs`). -/
def HINT_EXPECTED_ALIAS_IDENTIFIER : String :=
  "specify the alias identifier after the `as` keyword, e.g. `use crate::Data as GlobalData;`"

/-- The inner loop of the path parser: after an identifier, repeatedly
consume `:: identifier`; the first token that does not continue the path is
returned as the unowned lookahead. -/
def pathLoop (acc : List String) : List Token → Except Error (List String × Option Token × List Token)
  | [] => .ok (acc, none, [])
  | t1 :: rest =>
      if t1.lexeme = .symbol .doubleColon then
        match rest with
        | [] => .ok (acc, some t1, [])
        | t2 :: rest2 =>
            match t2.lexeme with
            | .identifier name => pathLoop (acc ++ [name]) rest2
            | _ => .error (.syntaxError (.expectedIdentifier t2.location t2.lexeme none))
      else
        .ok (acc, some t1, rest)

/-- Modelled from the spec: `PathOperandParser` (the expression path
sub-parser called by the use parser's `Path` state) is not under `src/`; per
the spec's §3/§4.3 a qualified path is `a::b::c` — an identifier followed by
zero or more `:: identifier` pairs — and per §4.2 every sub-parser returns
its result together with the one token it consumed but did not own.  The
path is embedded as its list of segment names. -/
def pathParse (stream : List Token) : Except Error (List String × Option Token × List Token) :=
  match stream with
  | [] => .error (.syntaxError (.expectedIdentifier ⟨0, 0⟩ .eof none))
  | t :: rest =>
      match t.lexeme with
      | .identifier name => pathLoop [name] rest
      | _ => .error (.syntaxError (.expectedIdentifier t.location t.lexeme none))

/-- A parsed `use` statement: its location, the path segments, and the
optional alias identifier. -/
structure UseStatement : Type where
  location : Location
  path : List String
  aliasIdent : Option String
  deriving DecidableEq

/-- The `use` statement parser, mirroring the state machine of `use.rs`:
`KeywordUse → Path → AsOrNext → (AliasIdentifier →) Semicolon`.  A non-`use`
first token fails with `Expected { wanted: ["use"], hint: None }`; a
non-identifier alias fails with `ExpectedIdentifier` carrying
`HINT_EXPECTED_ALIAS_IDENTIFIER`; a missing semicolon fails with
`Expected { wanted: [";"], hint: None }`. -/
def useParse (initial : Option Token) (stream : List Token) :
    Except Error (UseStatement × Option Token) :=
  let p1 := takeOrNext initial stream
  match p1.1.lexeme with
  | .keyword .use =>
      match pathParse p1.2 with
      | .error e => .error e
      | .ok pr =>
          let p2 := takeOrNext pr.2.1 pr.2.2
          match p2.1.lexeme with
          | .keyword .as =>
              let p3 := takeOrNext none p2.2
              match p3.1.lexeme with
              | .identifier ident =>
                  let p4 := takeOrNext none p3.2
                  match p4.1.lexeme with
                  | .symbol .semicolon => .ok (⟨p1.1.location, pr.1, some ident⟩, none)
                  | _ =>
                      .error (.syntaxError (.expectedOneOf p4.1.location [";"] p4.1.lexeme none))
              | _ =>
                  .error (.syntaxError (.expectedIdentifier p3.1.location p3.1.lexeme
                    (some HINT_EXPECTED_ALIAS_IDENTIFIER)))
          | .symbol .semicolon => .ok (⟨p1.1.location, pr.1, none⟩, none)
          | _ => .error (.syntaxError (.expectedOneOf p2.1.location [";"] p2.1.lexeme none))
  | _ => .error (.syntaxError (.expectedOneOf p1.1.location ["use"] p1.1.lexeme none))

/-- A parsed `contract` statement over abstract field and statement payloads
`F` and `S` (the field-list and local-implementation sub-parsers are passed
in as functions, as the contract parser treats them as black boxes). -/
structure ContractStatement (F S : Type) : Type where
  location : Location
  identifier : String
  fields : List F
  statements : List S

/-- The `StatementOrBracketCurlyRight` loop of the contract parser: take a
token; a `}` finishes, anything else is handed to the local-implementation
statement sub-parser, whose unowned lookahead is threaded into the next
iteration.  The loop is fuelled; `none` means the fuel ran out (the Rust
loop simply iterates). -/
def contractLoop {S : Type}
    (stmtP : Token → List Token → Except Error (S × Option Token × List Token)) :
    Nat → Option Token → List Token → List S → Option (Except Error (List S))
  | 0, _, _, _ => none
  | fuel + 1, nextTok, stream, acc =>
      let p := takeOrNext nextTok stream
      match p.1.lexeme with
      | .symbol .bracketCurlyRight => some (.ok acc)
      | _ =>
          match stmtP p.1 p.2 with
          | .error e => some (.error e)
          | .ok r => contractLoop stmtP fuel r.2.1 r.2.2 (acc ++ [r.1])

/-- The `contract` statement parser, mirroring the state machine of
`contract.rs`: `KeywordContract → Identifier → BracketCurlyLeftOrEnd →
FieldList → StatementOrBracketCurlyRight`.  A non-`contract` first token
fails with `Expected { wanted: ["contract"], hint: None }`; a non-identifier
second token fails with `ExpectedIdentifier` carrying
`HINT_EXPECTED_IDENTIFIER`; a token other than `{` after the identifier ends
the statement early, returning it as the unowned lookahead. -/
def contractParse {F S : Type}
    (fieldsP : List Token → Except Error (List F × Option Token × List Token))
    (stmtP : Token → List Token → Except Error (S × Option Token × List Token))
    (fuel : Nat) (initial : Option Token) (stream : List Token) :
    Option (Except Error (ContractStatement F S × Option Token)) :=
  let p1 := takeOrNext initial stream
  match p1.1.lexeme with
  | .keyword .contract =>
      let p2 := takeOrNext none p1.2
      match p2.1.lexeme with
      | .identifier ident =>
          let p3 := takeOrNext none p2.2
          match p3.1.lexeme with
          | .symbol .bracketCurlyLeft =>
              match fieldsP p3.2 with
              | .error e => some (.error e)
              | .ok fr =>
                  match contractLoop stmtP fuel fr.2.1 fr.2.2 [] with
                  | none => none
                  | some (.error e) => some (.error e)
                  | some (.ok stmts) =>
                      some (.ok (⟨p1.1.location, ident, fr.1, stmts⟩, none))
          | _ => some (.ok (⟨p1.1.location, ident, [], []⟩, some p3.1))
      | _ =>
          some (.error (.syntaxError (.expectedIdentifier p2.1.location p2.1.lexeme
            (some HINT_EXPECTED_IDENTIFIER))))
  | _ =>
      some (.error (.syntaxError (.expectedOneOf p1.1.location ["contract"] p1.1.lexeme none)))

/-- The token stream of the source `use jabberwocky` (the input of the
in-source test `error_expected_semicolon`): the `Eof` lexeme sits at column
16. -/
def useJabberwockyTokens : List Token :=
  [⟨.keyword .use, ⟨1, 1⟩⟩, ⟨.identifier "jabberwocky", ⟨1, 5⟩⟩, ⟨.eof, ⟨1, 16⟩⟩]

end Parsing

namespace Parsing

/-- The token stream of the source `use a as 5;`: the alias position holds
the integer literal `5` at column 10 instead of an identifier. -/
def useAliasBadTokens : List Token :=
  [⟨.keyword .use, ⟨1, 1⟩⟩, ⟨.identifier "a", ⟨1, 5⟩⟩, ⟨.keyword .as, ⟨1, 7⟩⟩,
   ⟨.literalInteger 5, ⟨1, 10⟩⟩, ⟨.symbol .semicolon, ⟨1, 11⟩⟩, ⟨.eof, ⟨1, 12⟩⟩]

/-- The token stream of the source `contract { a: u8 };` (the input of the
in-source test `error_expected_identifier`): the `{` at column 10 sits where
the contract identifier is required. -/
def contractBraceTokens : List Token :=
  [⟨.keyword .contract, ⟨1, 1⟩⟩, ⟨.symbol .bracketCurlyLeft, ⟨1, 10⟩⟩,
   ⟨.identifier "a", ⟨1, 12⟩⟩, ⟨.symbol .bracketCurlyRight, ⟨1, 18⟩⟩,
   ⟨.symbol .semicolon, ⟨1, 19⟩⟩, ⟨.eof, ⟨1, 20⟩⟩]

end Parsing

namespace Semantic

/-- The constant array element errors, as expected by the in-source
`array/tests.rs`. -/
inductive ArrayConstantError : Type
  | pushingInvalidType (expected found : String)
  | indexOutOfRange (index : String) (size : Nat)
  | sliceStartOutOfRange (start : String)
  | sliceEndOutOfRange (last : String) (size : Nat)
  | sliceEndLesserThanStart (start last : String)
  deriving DecidableEq

/-- Modelled from the spec: the constant array element implementation
(`semantic/element/constant/array`) is not under `src/` (only its tests
are).  Per §4.4, compile-time indexing of a constant array rejects an
out-of-range index with `IndexOutOfRange { index, size }` — the error the
in-source test `error_index_out_of_range` expects —, where `index` is the
stringified big integer and `size` the array length.  The array is embedded
as its list of element values. -/
def arrayIndex (values : List Int) (i : Int) : Except ArrayConstantError Int :=
  if h : 0 ≤ i ∧ i.toNat < values.length then
    .ok (values.get ⟨i.toNat, h.2⟩)
  else
    .error (.indexOutOfRange (toString i) values.length)

/-- Modelled from the spec: compile-time slicing of a constant array (§4.4)
rejects a negative slice start (`SliceStartOutOfRange`), an end greater than
the array length (`SliceEndOutOfRange`), and an end less than the start
(`SliceEndLesserThanStart`), matching the in-source tests
`error_slice_start_out_of_range`, `error_slice_end_out_of_range` and
`error_slice_end_lesser_than_start`; otherwise it yields the elements
`start..end` (end exclusive, the §8 slice identity). -/
def arraySlice (values : List Int) (start last : Int) :
    Except ArrayConstantError (List Int) :=
  if start < 0 then .error (.sliceStartOutOfRange (toString start))
  else if last > values.length then
    .error (.sliceEndOutOfRange (toString last) values.length)
  else if last < start then
    .error (.sliceEndLesserThanStart (toString start) (toString last))
  else .ok ((values.take last.toNat).drop start.toNat)

end Semantic

namespace ZincVM

/-- A branch frame of the `zinc-vm` branch state (spec §4.6): the popped
condition, the current side (`true` = then), and the side-local
evaluation-stack pushes and data-stack writes recorded while each side
executes. -/
structure Frame : Type where
  cond : Bool
  side : Bool
  thenPushes : List Int
  elsePushes : List Int
  thenWrites : List (Nat × Int)
  elseWrites : List (Nat × Int)
  deriving DecidableEq

/-- The `zinc-vm` state: the evaluation stack (head = top), the data stack
as an address/value association list (head shadows), and the branch-frame
stack (head = innermost). -/
structure VMState : Type where
  eval : List Int
  data : List (Nat × Int)
  frames : List Frame
  deriving DecidableEq

/-- The initial state: everything empty. -/
def initial : VMState := ⟨[], [], []⟩

/-- Look an address up in an address/value association list. -/
def lookupAddr (l : List (Nat × Int)) (a : Nat) : Option Int :=
  (l.find? fun p => p.1 = a).map Prod.snd

/-- The side-local pushes of the frame's current side. -/
def Frame.sidePushes (f : Frame) : List Int :=
  if f.side then f.thenPushes else f.elsePushes

/-- The side-local writes of the frame's current side. -/
def Frame.sideWrites (f : Frame) : List (Nat × Int) :=
  if f.side then f.thenWrites else f.elseWrites

/-- Push a value: onto the evaluation stack outside any branch, otherwise
recorded among the current side's pushes of the innermost frame. -/
def pushValue (st : VMState) (v : Int) : VMState :=
  match st.frames with
  | [] => { st with eval := v :: st.eval }
  | f :: fs =>
      if f.side then { st with frames := { f with thenPushes := v :: f.thenPushes } :: fs }
      else { st with frames := { f with elsePushes := v :: f.elsePushes } :: fs }

/-- Pop a value: from the evaluation stack outside any branch, otherwise
from the current side's own pushes of the innermost frame (a pop reaching
below the side-local pushes is not modelled and is treated as a stack
underflow, which no program in this file performs). -/
def popValue (st : VMState) : Option (Int × VMState) :=
  match st.frames with
  | [] =>
      match st.eval with
      | [] => none
      | v :: rest => some (v, { st with eval := rest })
  | f :: fs =>
      if f.side then
        match f.thenPushes with
        | [] => none
        | v :: rest => some (v, { st with frames := { f with thenPushes := rest } :: fs })
      else
        match f.elsePushes with
        | [] => none
        | v :: rest => some (v, { st with frames := { f with elsePushes := rest } :: fs })

/-- Read an address: the current side's pending writes of the innermost
frames shadow the data stack. -/
def readAddr (frames : List Frame) (data : List (Nat × Int)) (a : Nat) : Option Int :=
  match frames with
  | [] => lookupAddr data a
  | f :: fs =>
      match lookupAddr f.sideWrites a with
      | some v => some v
      | none => readAddr fs data a

/-- Record a write: to the data stack outside any branch, otherwise among
the current side's writes of the innermost frame. -/
def writeValue (st : VMState) (a : Nat) (v : Int) : VMState :=
  match st.frames with
  | [] => { st with data := (a, v) :: st.data }
  | f :: fs =>
      if f.side then { st with frames := { f with thenWrites := (a, v) :: f.thenWrites } :: fs }
      else { st with frames := { f with elseWrites := (a, v) :: f.elseWrites } :: fs }

/-- The `zinc-vm` instructions of the claim's bytecode.  `Push` carries the
pushed constant (its type operand plays no role for the in-range `i8`
constants of the claim); `Store`/`Load` address a single data-stack word
(the claim's bytecode uses size `1` throughout). -/
inductive Instruction : Type
  | push : Int → Instruction
  | store : Nat → Instruction
  | load : Nat → Instruction
  | gt : Instruction
  | condIf : Instruction
  | condElse : Instruction
  | condEndIf : Instruction

/-- Modelled from the spec: the `zinc-vm` core (`IVirtualMachine` with
`branch_then`/`branch_else`/`branch_end`, and the `Push`/`Store`/`Load`/`Gt`
executors) is not under `src/` — `conditional.rs` only delegates `If`,
`Else` and `EndIf` to it — so it is modelled from §4.6: `If` pops the
boolean condition and opens a frame on side *then*; `Else` flips the side;
`EndIf` closes the frame and merges the side selected by the condition —
its recorded pushes onto the evaluation stack and its recorded writes onto
the data stack (or into the parent frame's current side when nested); both
sides execute and their effects are recorded side-locally until the merge.
`Gt` compares the second-popped value as the left operand against the
first-popped one (the newer `zinc-vm` operand order of §9, which also makes
`test_data_stack`'s `Sub` produce `0 - 1 = -1`), pushing `1` or `0`. -/
def step : Instruction → VMState → Option VMState
  | .push v, st => some (pushValue st v)
  | .store a, st => (popValue st).map fun p => writeValue p.2 a p.1
  | .load a, st => (readAddr st.frames st.data a).map fun v => pushValue st v
  | .gt, st =>
      (popValue st).bind fun pr =>
        (popValue pr.2).map fun pl =>
          pushValue pl.2 (if pr.1 < pl.1 then 1 else 0)
  | .condIf, st =>
      (popValue st).bind fun p =>
        if p.1 = 1 then
          some { p.2 with frames := ⟨true, true, [], [], [], []⟩ :: p.2.frames }
        else if p.1 = 0 then
          some { p.2 with frames := ⟨false, true, [], [], [], []⟩ :: p.2.frames }
        else none
  | .condElse, st =>
      match st.frames with
      | f :: fs => if f.side then some { st with frames := { f with side := false } :: fs } else none
      | [] => none
  | .condEndIf, st =>
      match st.frames with
      | [] => none
      | f :: fs =>
          let selPushes := if f.cond then f.thenPushes else f.elsePushes
          let selWrites := if f.cond then f.thenWrites else f.elseWrites
          match fs with
          | [] =>
              some { eval := selPushes ++ st.eval, data := selWrites ++ st.data, frames := [] }
          | g :: gs =>
              if g.side then
                some { st with frames :=
                  { g with thenPushes := selPushes ++ g.thenPushes,
                           thenWrites := selWrites ++ g.thenWrites } :: gs }
              else
                some { st with frames :=
                  { g with elsePushes := selPushes ++ g.elsePushes,
                           elseWrites := selWrites ++ g.elseWrites } :: gs }

/-- Run a `zinc-vm` instruction list from a state. -/
def run : List Instruction → VMState → Option VMState
  | [], st => some st
  | i :: is, st => (step i st).bind (run is)

/-- The claim's bytecode for the pair `(a, b)`:
`[Push a; Store(0,1); Push b; Store(1,1); Load(1,1); Load(0,1); Gt; If;
Load(0,1); Load(1,1); Else; Load(1,1); Load(0,1); EndIf]`. -/
def minMaxProgram (a b : Int) : List Instruction :=
  [.push a, .store 0, .push b, .store 1, .load 1, .load 0, .gt,
   .condIf, .load 0, .load 1, .condElse, .load 1, .load 0, .condEndIf]

end ZincVM

namespace ZincOld

theorem popN_eq_of_le (n : Nat) (s : List Int) (h : n ≤ s.length) :
    popN n s = some (s.take n, s.drop n) := by
  induction n generalizing s with
  | zero => simp [popN]
  | succ n ih =>
      cases s with
      | nil => simp at h
      | cons x s =>
          simp only [List.length_cons, Nat.succ_le_succ_iff] at h
          simp [popN, ih s h]

end ZincOld

namespace TypeIndex

theorem contiguous_new : Contiguous newIndex 3 := by
  refine ⟨?_, rfl, ?_⟩ <;> decide

theorem contiguous_next (m : State) (n : Nat) (h : Contiguous m n) (t : String) :
    (next m t).1 = n ∧ Contiguous (next m t).2 (n + 1) := by
  obtain ⟨hset, hlen, hnodup⟩ := h
  have hfresh : n ∉ keys m := by
    intro hmem
    have h2 : n ∈ Finset.range n := by
      rw [← hset]
      exact List.mem_toFinset.mpr hmem
    simp at h2
  have hfilterm : List.filter (fun p => decide (p.1 ≠ n)) m = m := by
    apply List.filter_eq_self.mpr
    intro a ha
    simp only [decide_eq_true_eq]
    intro he
    exact hfresh (he ▸ List.mem_map_of_mem Prod.fst ha)
  have hins : insertEntry m n t = (n, t) :: m := by
    show (n, t) :: List.filter (fun p => decide (p.1 ≠ n)) m = (n, t) :: m
    rw [hfilterm]
  have hnext_eq : next m t = (n, (n, t) :: m) := by
    show (lenEntries m, insertEntry m (lenEntries m) t) = (n, (n, t) :: m)
    rw [hlen, hins]
  rw [hnext_eq]
  refine ⟨rfl, ?_, ?_, ?_⟩
  · show ((n : Nat) :: keys m).toFinset = Finset.range (n + 1)
    rw [List.toFinset_cons, hset, Finset.range_succ]
  · show lenEntries m + 1 = n + 1
    rw [hlen]
  · exact List.nodup_cons.mpr ⟨hfresh, hnodup⟩

theorem runCalls_spec (ts : List String) (m : State) (n : Nat) (h : Contiguous m n) :
    (runCalls m ts).1 = List.range' n ts.length ∧
      Contiguous (runCalls m ts).2 (n + ts.length) := by
  induction ts generalizing m n with
  | nil => simpa [runCalls, List.range'] using h
  | cons t ts ih =>
      obtain ⟨hid, hnext⟩ := contiguous_next m n h t
      obtain ⟨hids, hcont⟩ := ih (next m t).2 (n + 1) hnext
      constructor
      · simp [runCalls, hid, hids, List.range'_succ]
      · simpa [runCalls, Nat.add_assoc, Nat.add_comm 1 ts.length] using hcont

end TypeIndex

namespace Semantic

theorem checkField_eq_ok (e : AttributeElement) (pos : Nat) (exp : String) (n : Int) :
    checkField e pos exp = .ok n ↔
      e.path = exp ∧ e.variant = some (.value (.integer n)) := by
  cases e with
  | mk loc p var =>
      simp only [checkField, AttributeElement.path, AttributeElement.variant,
        AttributeElement.location]
      by_cases hp : p = exp
      · subst hp
        cases var with
        | none => simp
        | some v2 =>
            cases v2 with
            | value lit => cases lit <;> simp
            | nested ns => simp
      · simp [hp]

theorem zksyncBranch_ok_iff (el : AttributeElement) (n1 n2 n3 n4 : Int) :
    zksyncBranch el = .ok (.zksyncMsg n1 n2 n3 n4) ↔
      zksyncMsgShape el n1 n2 n3 n4 := by
  cases el with
  | mk loc p var =>
      cases var with
      | none =>
          simp [zksyncBranch, zksyncMsgShape, AttributeElement.variant]
      | some v2 =>
          cases v2 with
          | value lit =>
              simp [zksyncBranch, zksyncMsgShape, AttributeElement.variant]
          | nested ns =>
              rcases ns with _ | ⟨e1, _ | ⟨e2, _ | ⟨e3, _ | ⟨e4, _ | ⟨e5, rest⟩⟩⟩⟩⟩
              case nil => simp [zksyncBranch, zksyncMsgShape, AttributeElement.variant]
              case cons.nil => simp [zksyncBranch, zksyncMsgShape, AttributeElement.variant]
              case cons.cons.nil => simp [zksyncBranch, zksyncMsgShape, AttributeElement.variant]
              case cons.cons.cons.nil =>
                simp [zksyncBranch, zksyncMsgShape, AttributeElement.variant]
              case cons.cons.cons.cons.cons =>
                simp [zksyncBranch, zksyncMsgShape, AttributeElement.variant]
              case cons.cons.cons.cons.nil =>
                simp only [zksyncBranch, AttributeElement.variant]
                constructor
                · intro h
                  cases h1 : checkField e1 1 "sender" with
                  | error e => simp only [h1] at h; exact Except.noConfusion h
                  | ok sv =>
                      simp only [h1] at h
                      cases h2 : checkField e2 2 "recipient" with
                      | error e => simp only [h2] at h; exact Except.noConfusion h
                      | ok rv =>
                          simp only [h2] at h
                          cases h3 : checkField e3 3 "token_address" with
                          | error e => simp only [h3] at h; exact Except.noConfusion h
                          | ok tv =>
                              simp only [h3] at h
                              cases h4 : checkField e4 4 "amount" with
                              | error e => simp only [h4] at h; exact Except.noConfusion h
                              | ok av =>
                                  simp only [h4, Except.ok.injEq,
                                    Attribute.zksyncMsg.injEq] at h
                                  obtain ⟨hs, hr, ht, ha⟩ := h
                                  subst hs; subst hr; subst ht; subst ha
                                  obtain ⟨hp1, hv1⟩ := (checkField_eq_ok e1 1 "sender" sv).mp h1
                                  obtain ⟨hp2, hv2⟩ :=
                                    (checkField_eq_ok e2 2 "recipient" rv).mp h2
                                  obtain ⟨hp3, hv3⟩ :=
                                    (checkField_eq_ok e3 3 "token_address" tv).mp h3
                                  obtain ⟨hp4, hv4⟩ := (checkField_eq_ok e4 4 "amount" av).mp h4
                                  exact ⟨e1, e2, e3, e4, rfl, hp1, hv1, hp2, hv2,
                                    hp3, hv3, hp4, hv4⟩
                · rintro ⟨e1', e2', e3', e4', hvar, hp1, hv1, hp2, hv2, hp3, hv3, hp4, hv4⟩
                  simp only [AttributeElement.variant, Option.some.injEq,
                    AttributeElementVariant.nested.injEq, List.cons.injEq,
                    and_true] at hvar
                  obtain ⟨he1, he2, he3, he4⟩ := hvar
                  subst he1; subst he2; subst he3; subst he4
                  have h1 := (checkField_eq_ok _ 1 "sender" n1).mpr ⟨hp1, hv1⟩
                  have h2 := (checkField_eq_ok _ 2 "recipient" n2).mpr ⟨hp2, hv2⟩
                  have h3 := (checkField_eq_ok _ 3 "token_address" n3).mpr ⟨hp3, hv3⟩
                  have h4 := (checkField_eq_ok _ 4 "amount" n4).mpr ⟨hp4, hv4⟩
                  simp only [h1, h2, h3, h4]

theorem zksyncBranch_ok_shape (el : AttributeElement) (a : Attribute)
    (h : zksyncBranch el = .ok a) : ∃ n1 n2 n3 n4, a = .zksyncMsg n1 n2 n3 n4 := by
  cases el with
  | mk loc p var =>
      cases var with
      | none => simp [zksyncBranch, AttributeElement.variant] at h
      | some v2 =>
          cases v2 with
          | value lit => simp [zksyncBranch, AttributeElement.variant] at h
          | nested ns =>
              rcases ns with _ | ⟨e1, _ | ⟨e2, _ | ⟨e3, _ | ⟨e4, _ | ⟨e5, rest⟩⟩⟩⟩⟩
              case nil => simp [zksyncBranch, AttributeElement.variant] at h
              case cons.nil => simp [zksyncBranch, AttributeElement.variant] at h
              case cons.cons.nil => simp [zksyncBranch, AttributeElement.variant] at h
              case cons.cons.cons.nil =>
                simp [zksyncBranch, AttributeElement.variant] at h
              case cons.cons.cons.cons.cons =>
                simp [zksyncBranch, AttributeElement.variant] at h
              case cons.cons.cons.cons.nil =>
                simp only [zksyncBranch, AttributeElement.variant] at h
                cases h1 : checkField e1 1 "sender" with
                | error e => simp only [h1] at h; exact Except.noConfusion h
                | ok sv =>
                    simp only [h1] at h
                    cases h2 : checkField e2 2 "recipient" with
                    | error e => simp only [h2] at h; exact Except.noConfusion h
                    | ok rv =>
                        simp only [h2] at h
                        cases h3 : checkField e3 3 "token_address" with
                        | error e => simp only [h3] at h; exact Except.noConfusion h
                        | ok tv =>
                            simp only [h3] at h
                            cases h4 : checkField e4 4 "amount" with
                            | error e => simp only [h4] at h; exact Except.noConfusion h
                            | ok av =>
                                simp only [h4, Except.ok.injEq] at h
                                exact ⟨sv, rv, tv, av, h.symm⟩

end Semantic

/-- C1: the claim states that `div_rem` implements truncated division, with
`sign(a%b) = sign(a)`.  Counterexample: at `a = -9`, `b = 4` the machine's
`div_rem` yields quotient `-3` and remainder `3` (as asserted by the in-source
test `test_rem`), and `sign 3 ≠ sign (-9)`; truncated division would yield
remainder `-1`. -/
theorem div_rem_not_truncated_counterexample :
    Zrustm.div_rem (-9) 4 = some (-3, 3) ∧ (3 : Int).sign ≠ (-9 : Int).sign :=
  by decide

/-- C1 (amended): for all integers `a`, `b` with `b ≠ 0`, `div_rem` satisfies
the Euclidean division law: `a = (a/b)*b + (a%b)` with `0 ≤ a%b < |b|` (the
remainder is non-negative, regardless of the signs of `a` and `b`). -/
theorem div_rem_euclidean (a b : Int) (h : b ≠ 0) :
    ∃ q r, Zrustm.div_rem a b = some (q, r) ∧ a = q * b + r ∧ 0 ≤ r ∧ r < |b| := by
  refine ⟨Int.ediv a b, Int.emod a b, ?_, ?_, ?_, ?_⟩
  · simp [Zrustm.div_rem, h]
  · have hlaw : b * Int.ediv a b + Int.emod a b = a := Int.ediv_add_emod a b
    linarith [hlaw]
  · exact Int.emod_nonneg a h
  · exact Int.emod_lt a h

/-- Witness for C1 (amended) at `a = -9`, `b = 4`. -/
theorem div_rem_euclidean_witness :
    ∃ q r, Zrustm.div_rem (-9) 4 = some (q, r) ∧ (-9 : Int) = q * 4 + r ∧ 0 ≤ r ∧ r < |(4 : Int)| :=
  div_rem_euclidean (-9) 4 (by decide)

/-- C2: the claim asserts (parenthetically) that after `[Push divisor;
Push dividend]` the top of the stack is the divisor.  Counterexample: after
`[Push 4; Push 9]` the stack is `[9, 4]` top-to-bottom — the top is the
dividend `9` —, and `Rem` computes `9 mod 4 = 1`, not `4 mod 9 = 4`. -/
theorem rem_operand_order_counterexample :
    Zrustm.run [.push 4, .push 9] [] = some [9, 4] ∧
      Zrustm.run [.push 4, .push 9, .rem] [] = some [1] ∧
      (1 : Int) ≠ Int.emod 4 9 :=
  by decide

/-- C2 (amended): executing `Rem` over the dividend/divisor pairs `(9,4)`,
`(9,-4)`, `(-9,4)`, `(-9,-4)` yields remainders `1`, `1`, `3`, `3`
respectively, when the dividend is the second-pushed value (so the top of the
stack is the dividend and the first-pushed value is the divisor): for each
pair, running `[Push divisor; Push dividend; Rem]` leaves that remainder on
the stack; the combined program of the in-source test leaves `[3, 3, 1, 1]`
top-to-bottom. -/
theorem rem_pairs :
    Zrustm.run [.push 4, .push 9, .rem] [] = some [1] ∧
      Zrustm.run [.push (-4), .push 9, .rem] [] = some [1] ∧
      Zrustm.run [.push 4, .push (-9), .rem] [] = some [3] ∧
      Zrustm.run [.push (-4), .push (-9), .rem] [] = some [3] ∧
      Zrustm.run
          [.push 4, .push 9, .rem, .push (-4), .push 9, .rem,
           .push 4, .push (-9), .rem, .push (-4), .push (-9), .rem] [] =
        some [3, 3, 1, 1] :=
  by decide

/-- C3: executing the claim's bytecode leaves the evaluation stack equal to
`[max(a,b), min(a,b)]` top-to-bottom for each of `(a,b) = (5,7)`, `(7,5)`,
`(6,6)`; and both branch sides execute — just before `EndIf` the branch
frame of the `(5,7)` run holds the then-side pushes `[7, 5]` and the
else-side pushes `[5, 7]` side-locally, with the then-side pushes selected
by the true condition at `EndIf`. -/
theorem conditional_minmax :
    (ZincVM.run (ZincVM.minMaxProgram 5 7) ZincVM.initial).map ZincVM.VMState.eval =
        some [7, 5] ∧
      (ZincVM.run (ZincVM.minMaxProgram 7 5) ZincVM.initial).map ZincVM.VMState.eval =
        some [7, 5] ∧
      (ZincVM.run (ZincVM.minMaxProgram 6 6) ZincVM.initial).map ZincVM.VMState.eval =
        some [6, 6] ∧
      (ZincVM.run ((ZincVM.minMaxProgram 5 7).take 13) ZincVM.initial).map
          ZincVM.VMState.frames =
        some [⟨true, false, [7, 5], [5, 7], [], []⟩] :=
  by decide

/-- C4: starting from an empty evaluation stack, executing
`[Push 1; Push 2; Push 3; Push 4; Push 5; Push 6; Slice(5,2,1)]` succeeds and
leaves the evaluation stack top-to-bottom equal to `[4, 3, 1]`; in general,
`Slice(len, slice_len, offset)` keeps the `slice_len` elements sitting
`offset` positions from the (bottom) end of the `len`-element stack-top
window and preserves all values below the window. -/
theorem slice_keeps_window :
    ZincOld.run
        [.pushConst 1, .pushConst 2, .pushConst 3, .pushConst 4,
         .pushConst 5, .pushConst 6, .slice 5 2 1] [] =
      some [4, 3, 1] ∧
      ∀ (s : List Int) (len sl so : Nat),
        sl + so ≤ len → len ≤ s.length →
        ZincOld.run [.slice len sl so] s =
          some ((s.drop (len - (sl + so))).take sl ++ s.drop len) := by
  refine ⟨by decide, fun s len sl so h1 h2 => ?_⟩
  have hoff : len - (sl + so) ≤ s.length := le_trans (Nat.sub_le _ _) h2
  have hsl : sl ≤ (s.drop (len - (sl + so))).length := by
    simp only [List.length_drop]
    omega
  have hso : so ≤ ((s.drop (len - (sl + so))).drop sl).length := by
    simp only [List.length_drop]
    omega
  have hidx : ((s.drop (len - (sl + so))).drop sl).drop so = s.drop len := by
    simp only [List.drop_drop]
    congr 1
    omega
  simp only [ZincOld.run, ZincOld.step, if_pos h1,
    ZincOld.popN_eq_of_le _ _ hoff,
    ZincOld.popN_eq_of_le _ _ hsl, ZincOld.popN_eq_of_le _ _ hso, hidx,
    Option.bind_eq_bind, Option.some_bind, Option.map_some', Option.bind_some]

/-- Witness for C4 at the test input: the general window law instantiated at
the stack `[6, 5, 4, 3, 2, 1]` with `Slice(5, 2, 1)`. -/
theorem slice_keeps_window_witness :
    ZincOld.run [.slice 5 2 1] [6, 5, 4, 3, 2, 1] =
      some (([6, 5, 4, 3, 2, 1].drop 2).take 2 ++ [6, 5, 4, 3, 2, 1].drop 5) :=
  slice_keeps_window.2 [6, 5, 4, 3, 2, 1] 5 2 1 (by decide) (by decide)

/-- C5: compile-time indexing and slicing of constant arrays reject every
misuse with a semantic error: on the five-element array `[1,2,3,4,5]`, index
`5` fails with `IndexOutOfRange { index: "5", size: 5 }` (the error the
in-source test expects for `fn main() { const V: u8 = [1,2,3,4,5][5]; }`),
slice `[-1..1]` fails with `SliceStartOutOfRange`, slice `[0..6]` fails with
`SliceEndOutOfRange`, slice `[2..1]` fails with `SliceEndLesserThanStart`;
in general every out-of-range index is rejected. -/
theorem const_array_rejects_misuse :
    Semantic.arrayIndex [1, 2, 3, 4, 5] 5 = .error (.indexOutOfRange "5" 5) ∧
      Semantic.arraySlice [1, 2, 3, 4, 5] (-1) 1 = .error (.sliceStartOutOfRange "-1") ∧
      Semantic.arraySlice [1, 2, 3, 4, 5] 0 6 = .error (.sliceEndOutOfRange "6" 5) ∧
      Semantic.arraySlice [1, 2, 3, 4, 5] 2 1 = .error (.sliceEndLesserThanStart "2" "1") ∧
      ∀ (values : List Int) (i : Int),
        ¬(0 ≤ i ∧ i.toNat < values.length) →
        Semantic.arrayIndex values i =
          .error (.indexOutOfRange (toString i) values.length) := by
  refine ⟨rfl, rfl, rfl, rfl, fun values i h => ?_⟩
  simp [Semantic.arrayIndex, h]

/-- Witness for C5: the general out-of-range rejection instantiated at the
test input `[1,2,3,4,5][5]`. -/
theorem const_array_rejects_misuse_witness :
    Semantic.arrayIndex [1, 2, 3, 4, 5] 5 =
      .error (.indexOutOfRange (toString (5 : Int)) [1, 2, 3, 4, 5].length) :=
  const_array_rejects_misuse.2.2.2.2 [1, 2, 3, 4, 5] 5 (by decide)

/-- C6: converting a syntax attribute whose first element is named
`zksync::msg` into a semantic `Attribute` succeeds — producing
`ZksyncMsg{sender, recipient, token_address, amount}` — if and only if that
element carries exactly four nested key/value pairs named, in order,
`sender`, `recipient`, `token_address`, `amount`, each with an
integer-literal value; the only possible success is a `ZksyncMsg`, and on
any deviation from the shape the conversion returns a structured error
(whose variants carry the offending location, name and position). -/
theorem attribute_zksync_msg_iff (v : Semantic.SyntaxAttribute)
    (el : Semantic.AttributeElement) (rest : List Semantic.AttributeElement)
    (hv : v.elements = el :: rest) (hpath : el.path = "zksync::msg") :
    (∀ n1 n2 n3 n4 : Int,
        Semantic.tryFrom v = .ok (.zksyncMsg n1 n2 n3 n4) ↔
          Semantic.zksyncMsgShape el n1 n2 n3 n4) ∧
      (∀ a, Semantic.tryFrom v = .ok a →
        ∃ n1 n2 n3 n4, a = .zksyncMsg n1 n2 n3 n4) ∧
      ((¬ ∃ n1 n2 n3 n4, Semantic.zksyncMsgShape el n1 n2 n3 n4) →
        ∃ err, Semantic.tryFrom v = .error err) := by
  have hred : Semantic.tryFrom v = Semantic.zksyncBranch el := by
    simp [Semantic.tryFrom, hv, hpath]
  refine ⟨fun n1 n2 n3 n4 => ?_, fun a ha => ?_, fun hns => ?_⟩
  · rw [hred]
    exact Semantic.zksyncBranch_ok_iff el n1 n2 n3 n4
  · exact Semantic.zksyncBranch_ok_shape el a (hred ▸ ha)
  · cases hres : Semantic.zksyncBranch el with
    | error e => exact ⟨e, hred.trans hres⟩
    | ok a =>
        obtain ⟨n1, n2, n3, n4, rfl⟩ := Semantic.zksyncBranch_ok_shape el a hres
        exact absurd
          ⟨n1, n2, n3, n4, (Semantic.zksyncBranch_ok_iff el n1 n2 n3 n4).mp hres⟩ hns

/-- Witness for C6: the well-shaped example attribute converts to
`ZksyncMsg{1, 2, 3, 4}`. -/
theorem attribute_zksync_msg_iff_witness :
    Semantic.tryFrom Semantic.exampleZkMsgAttribute = .ok (.zksyncMsg 1 2 3 4) := by
  have h := attribute_zksync_msg_iff Semantic.exampleZkMsgAttribute
    Semantic.exampleZkMsgElement [] rfl rfl
  exact (h.1 1 2 3 4).mpr
    ⟨Semantic.exampleZkEl1, Semantic.exampleZkEl2, Semantic.exampleZkEl3,
      Semantic.exampleZkEl4, rfl, rfl, rfl, rfl, rfl, rfl, rfl, rfl, rfl⟩

/-- C7: the claim states that the `Cast` instruction carries its target
signedness and bit-width as operands and that its encoding round-trips them.
Counterexample: `Cast::new(true, 8)` and `Cast::new(false, 16)` are the same
instruction (the constructor discards both arguments), their encodings are
the identical single opcode byte with no operand bytes, and both decode to
the same result — so no signedness or width is carried or recoverable. -/
theorem cast_carries_no_operands_counterexample :
    ZrustBytecode.Cast.new true 8 = ZrustBytecode.Cast.new false 16 ∧
      (ZrustBytecode.Cast.new true 8).encode = [ZrustBytecode.castOpcode] ∧
      ZrustBytecode.Cast.decode (ZrustBytecode.Cast.new true 8).encode =
        ZrustBytecode.Cast.decode (ZrustBytecode.Cast.new false 16).encode := by
  exact ⟨rfl, rfl, rfl⟩

/-- C7 (amended): in the `zrust-bytecode` crate the `Cast` instruction carries
no operands: `Cast::new(signed, width)` discards both arguments and yields the
unit `Cast`, whose encoding is the bare opcode byte, and decoding that
encoding round-trips the (unit) `Cast` instruction, consuming exactly one
byte. -/
theorem cast_encode_decode_roundtrip :
    ∀ (signed : Bool) (width : Nat),
      ZrustBytecode.Cast.new signed width = {} ∧
        (ZrustBytecode.Cast.new signed width).encode = [ZrustBytecode.castOpcode] ∧
        ZrustBytecode.Cast.decode (ZrustBytecode.Cast.new signed width).encode =
          .ok (ZrustBytecode.Cast.new signed width, 1) := by
  intro signed width
  refine ⟨rfl, rfl, ?_⟩
  simp [ZrustBytecode.Cast.decode, ZrustBytecode.Cast.encode]

/-- C8: the claim states that every token-transition failure of the contract
and use statement parsers carries an actionable hint.  Counterexample: on the
token stream of `use jabberwocky` (the input of the in-source test
`error_expected_semicolon`, whose expectation is exactly this error) the use
parser's `Semicolon` transition fails with
`Expected { wanted: [";"], found: Eof, hint: None }` — the hint is `None`. -/
theorem use_parser_failure_without_hint_counterexample :
    Parsing.useParse none Parsing.useJabberwockyTokens =
      .error (.syntaxError (.expectedOneOf ⟨1, 16⟩ [";"] .eof none)) ∧
      Parsing.SyntaxError.hintOf (.expectedOneOf ⟨1, 16⟩ [";"] .eof none) = none :=
  ⟨rfl, rfl⟩

/-- C8 (amended): every token-transition failure of the contract and use
statement parsers is an `Expected`/`ExpectedIdentifier` error carrying the
wanted token set (for `Expected`), the found lexeme and the location; the
identifier transitions carry an actionable hint, while the keyword and
semicolon transitions carry no hint (`hint: None`).  Concretely: a non-`use`
first token yields `Expected { wanted: ["use"], hint: None }`; a
non-`contract` first token yields `Expected { wanted: ["contract"], hint:
None }` (for any field-list and statement sub-parsers and any fuel); a
non-identifier alias yields `ExpectedIdentifier` with the alias hint; a
non-identifier after `contract` yields `ExpectedIdentifier` with the
contract hint; a missing semicolon yields `Expected { wanted: [";"], hint:
None }`. -/
theorem parser_transition_errors :
    (∀ (t : Parsing.Token) (rest : List Parsing.Token),
        t.lexeme ≠ .keyword .use →
        Parsing.useParse none (t :: rest) =
          .error (.syntaxError (.expectedOneOf t.location ["use"] t.lexeme none))) ∧
      (∀ (F S : Type)
          (fieldsP : List Parsing.Token →
            Except Parsing.Error (List F × Option Parsing.Token × List Parsing.Token))
          (stmtP : Parsing.Token → List Parsing.Token →
            Except Parsing.Error (S × Option Parsing.Token × List Parsing.Token))
          (fuel : Nat) (t : Parsing.Token) (rest : List Parsing.Token),
          t.lexeme ≠ .keyword .contract →
          Parsing.contractParse fieldsP stmtP fuel none (t :: rest) =
            some (.error (.syntaxError (.expectedOneOf t.location ["contract"] t.lexeme none)))) ∧
      Parsing.useParse none Parsing.useAliasBadTokens =
        .error (.syntaxError (.expectedIdentifier ⟨1, 10⟩ (.literalInteger 5)
          (some Parsing.HINT_EXPECTED_ALIAS_IDENTIFIER))) ∧
      (∀ (F S : Type)
          (fieldsP : List Parsing.Token →
            Except Parsing.Error (List F × Option Parsing.Token × List Parsing.Token))
          (stmtP : Parsing.Token → List Parsing.Token →
            Except Parsing.Error (S × Option Parsing.Token × List Parsing.Token))
          (fuel : Nat),
          Parsing.contractParse fieldsP stmtP fuel none Parsing.contractBraceTokens =
            some (.error (.syntaxError (.expectedIdentifier ⟨1, 10⟩ (.symbol .bracketCurlyLeft)
              (some Parsing.HINT_EXPECTED_IDENTIFIER))))) ∧
      Parsing.useParse none Parsing.useJabberwockyTokens =
        .error (.syntaxError (.expectedOneOf ⟨1, 16⟩ [";"] .eof none)) := by
  refine ⟨?_, ?_, rfl, ?_, rfl⟩
  · intro t rest h
    obtain ⟨lx, loc⟩ := t
    cases lx with
    | keyword k =>
        cases k with
        | use => exact absurd rfl h
        | contract => rfl
        | as => rfl
    | identifier s => rfl
    | literalInteger n => rfl
    | symbol s => rfl
    | eof => rfl
  · intro F S fieldsP stmtP fuel t rest h
    obtain ⟨lx, loc⟩ := t
    cases lx with
    | keyword k =>
        cases k with
        | contract => exact absurd rfl h
        | use => rfl
        | as => rfl
    | identifier s => rfl
    | literalInteger n => rfl
    | symbol s => rfl
    | eof => rfl
  · intro F S fieldsP stmtP fuel
    rfl

/-- Witness for C8 (amended): the keyword transitions instantiated at a
semicolon first token. -/
theorem parser_transition_errors_witness :
    Parsing.useParse none [⟨.symbol .semicolon, ⟨1, 1⟩⟩] =
      .error (.syntaxError (.expectedOneOf ⟨1, 1⟩ ["use"] (.symbol .semicolon) none)) :=
  parser_transition_errors.1 ⟨.symbol .semicolon, ⟨1, 1⟩⟩ [] (by decide)

/-- C9: across any single compile — any sequence of titles passed to
`Index::next` starting from the freshly seeded index — each call returns the
current number of recorded entries and records the new entry under that ID;
the IDs assigned are exactly `builtin_count, builtin_count+1, …` (a
contiguous, duplicate-free range starting at the built-in count `3`, the
three seeded built-in type IDs), and the full key set of the index is the
contiguous range `{0, …, 3 + n - 1}` with no duplicates. -/
theorem index_ids_contiguous (ts : List String) :
    (TypeIndex.runCalls TypeIndex.newIndex ts).1 = List.range' 3 ts.length ∧
      (∀ m t, (TypeIndex.next m t).1 = TypeIndex.lenEntries m) ∧
      (TypeIndex.keys (TypeIndex.runCalls TypeIndex.newIndex ts).2).toFinset =
        Finset.range (3 + ts.length) ∧
      (TypeIndex.keys (TypeIndex.runCalls TypeIndex.newIndex ts).2).Nodup := by
  obtain ⟨hids, hset, _, hnodup⟩ :=
    TypeIndex.runCalls_spec ts TypeIndex.newIndex 3 TypeIndex.contiguous_new
  exact ⟨hids, fun m t => rfl, hset, hnodup⟩

/-- C10: `Gt` pops exactly two values and pushes exactly one boolean,
comparing the first-popped (last-pushed, top-of-stack) value as the left
operand against the second-popped value: for any `x` pushed then `y` pushed
onto any stack `s`, executing `Gt` leaves `1` on top if `y > x` and `0`
otherwise, with the rest of the stack unchanged; in particular
`[Push 1; Push 2; Gt]` leaves `1`, `[Push 2; Push 1; Gt]` leaves `0`, and the
in-source test program leaves `[0, 0, 1]` top-to-bottom. -/
theorem gt_pops_two_pushes_comparison :
    (∀ (x y : Int) (s : List Int),
        Zrustvm.run [.push x, .push y, .gt] s =
          some ((if x < y then 1 else 0) :: s)) ∧
      Zrustvm.run [.push 1, .push 2, .gt] [] = some [1] ∧
      Zrustvm.run [.push 2, .push 1, .gt] [] = some [0] ∧
      Zrustvm.run
          [.push 1, .push 2, .gt, .push 2, .push 2, .gt,
           .push 2, .push 1, .gt] [] =
        some [0, 0, 1] := by
  refine ⟨fun x y s => ?_, by decide, by decide, by decide⟩
  simp [Zrustvm.run, Zrustvm.step, Zrustvm.gtOp]
